import Mathlib

/-!
Verification development for the transactional effect-capture engine in
`expr-gen.py` (journal/commit, read/write primitives, override dispatch,
goal/on_goal optimizer composition, minimize).

The Python code is shallowly embedded as follows.

State model. Python's mutable dict containers live on a heap addressed by
object identity: `Heap := Addr → List (Key × Val)` (every address denotes a
dict object, matching Python where dict objects always exist; `_dictSet`,
`_dictGet` and `_dictCreate` fall back to `id(key)` for unhashable keys, so
containers are uniformly addressed by identity here). Keys are modelled as
`Nat`. The process-wide globals `commit.reads` and `commit.writes` are the
`reads`/`writes` fields of `Ctx`; `None` is `Option.none`.

Values. `Val` covers the Python values the engine distinguishes: numbers
(`int`), `None` (`vnone`), dict objects (`ref` for heap-resident containers,
`vdict` for dict literals whose identity is irrelevant), and capability
values (`cap`), i.e. objects carrying a `__concept__` table with entries for
the `read` and `write` operations. An override function is modelled by the
value it returns at its (unique) call site for the fixed injected
uniform-deviate source — the spec treats the random source as injected, so
override bodies are deterministic functions of the value they are attached
to, and `OvEntry.fn ret` records that return value (`ret = vnone` models an
override function that returns `None`, i.e. defers). `OvEntry.missing`
models a `__concept__` table with no entry for the operation (Python:
`KeyError` from `data.__concept__[code]`); `OvEntry.null` models an entry
that is literally `None` (Python: `override is not None` fails, defer).

Exceptions are `Except PyErr`; `KeyError`, `TypeError`, `AttributeError`
and failures raised by the journaled computation itself are distinguished.

Computations run by `journal`/`goal` are deep-embedded as `Prog` (reads,
writes, read-dependent branching, failure, `on_goal` registration);
optimizer strategies registered via `on_goal` are deep-embedded as `Strat`,
with `Strat.combine` playing the role of the `combine`/`redo` closures of
`on_goal` and `NextComp.redo` the synthetic "next computation".
-/

namespace ExprGen

abbrev Key := Nat
abbrev Addr := Nat

/-- Exceptions that the embedded code can raise, mirroring the Python
exceptions the source raises or catches. `userError n` stands for an
arbitrary exception raised by a journaled computation. -/
inductive PyErr where
  | keyError
  | typeError
  | attrError
  | userError (n : Nat)
  deriving DecidableEq, Repr

/-- One entry of a `__concept__` override table (per operation):
`missing` = no entry for this operation (looking it up raises `KeyError`),
`null` = the entry is literally `None` (deferral sentinel, the override is
not called), `fn ret` = an override function whose call returns `ret`
(with `ret = vnone` modelling a function that returns `None`, i.e. defers). -/
inductive OvEntry (α : Type) where
  | missing
  | null
  | fn (ret : α)
  deriving Repr

/-- Python values as the engine distinguishes them: numbers, `None`,
heap-resident dict objects (`ref`), dict literals (`vdict`), and capability
values carrying a `__concept__` table with a read entry and a write entry
(`cap`). Plain values (`int`, `vnone`, `ref`, `vdict`) have no
`__concept__` attribute. -/
inductive Val where
  | int (n : Int)
  | vnone
  | ref (a : Addr)
  | vdict (m : List (Key × Val))
  | cap (rdE : OvEntry Val) (wrE : OvEntry Val)

/-- The two canonical checked operations whose overrides capability values
carry: `read` and `write` (the keys of the `__concept__` tables). -/
inductive Op where
  | rd
  | wr
  deriving DecidableEq, Repr

/-- Python `x is not None` test (against the `None` singleton). -/
def Val.isNone : Val → Bool
  | .vnone => true
  | _ => false

mutual

/-- Structural equality on values, used for dict-key lookup. For `ref`
values (dict objects) this is identity of addresses, matching Python's
identity-based fallback for unhashable keys; for numbers it is `==`. -/
def Val.beq : Val → Val → Bool
  | .int a, .int b => a == b
  | .vnone, .vnone => true
  | .ref a, .ref b => a == b
  | .vdict m, .vdict m2 => beqPairs m m2
  | .cap r w, .cap r2 w2 => beqEntry r r2 && beqEntry w w2
  | _, _ => false
termination_by v1 _ => sizeOf v1

/-- Structural equality on override-table entries (component of `Val.beq`). -/
def beqEntry : OvEntry Val → OvEntry Val → Bool
  | .missing, .missing => true
  | .null, .null => true
  | .fn a, .fn b => Val.beq a b
  | _, _ => false
termination_by e1 _ => sizeOf e1

/-- Structural equality on dict contents (component of `Val.beq`). -/
def beqPairs : List (Key × Val) → List (Key × Val) → Bool
  | [], [] => true
  | (k, v) :: r, (k2, v2) :: r2 => k == k2 && Val.beq v v2 && beqPairs r r2
  | _, _ => false
termination_by m1 _ => sizeOf m1

end

/-- Association-list lookup on a dict's contents (`d[key]`); `none` models
a raised `KeyError`. -/
def alistGet : List (Key × Val) → Key → Option Val
  | [], _ => none
  | (k2, v) :: rest, k => if k2 = k then some v else alistGet rest k

/-- Association-list store on a dict's contents (`d[key] = v`), preserving
insertion order of existing keys. -/
def alistSet : List (Key × Val) → Key → Val → List (Key × Val)
  | [], k, v => [(k, v)]
  | (k2, v2) :: rest, k, v =>
    if k2 = k then (k, v) :: rest else (k2, v2) :: alistSet rest k v

/-- Python `d.update(u)` on dict contents: store every pair of `u` into `d`
in order. -/
def dictUpdate (old upd : List (Key × Val)) : List (Key × Val) :=
  upd.foldl (fun acc kv => alistSet acc kv.1 kv.2) old

/-- An entry of a journal buffer (`commit.reads` / `commit.writes`):
a whole-value write stores the value itself under the container
(`_dictSet(commit.writes, dict, new)`), a keyed write stores an inner
key-to-value dict (`_dictSet(_dictCreate(commit.writes, dict), key, new)`). -/
inductive BufEntry where
  | whole (v : Val)
  | table (m : List (Key × Val))

/-- A journal buffer: the `commit.reads`/`commit.writes` dict, keyed by the
target value (containers by identity). -/
abbrev Buffer := List (Val × BufEntry)

/-- Buffer lookup (`_dictGet(buf, target)`); `none` models `KeyError`. -/
def dictGetBuf : Buffer → Val → Option BufEntry
  | [], _ => none
  | (t2, e) :: rest, t => if Val.beq t2 t then some e else dictGetBuf rest t

/-- Buffer store (`_dictSet(buf, target, entry)`), replacing in place. -/
def dictSetBuf : Buffer → Val → BufEntry → Buffer
  | [], t, e => [(t, e)]
  | (t2, e2) :: rest, t, e =>
    if Val.beq t2 t then (t, e) :: rest else (t2, e2) :: dictSetBuf rest t e

/-- Heap of dict objects, addressed by identity. -/
abbrev Heap := Addr → List (Key × Val)

/-- Replace the contents of the dict object at address `a`. -/
def heapSet (h : Heap) (a : Addr) (m : List (Key × Val)) : Heap :=
  fun a2 => if a2 = a then m else h a2

/-- The keyed-store path `_dictSet(_dictCreate(buf, target), key, v)`:
`_dictCreate` returns the existing entry for `target` or inserts a fresh
empty dict, and `_dictSet` then stores `v` under `key` inside whatever
`_dictCreate` returned. When the existing entry is a keyed table or a
buffered dict literal, the store lands in the buffer. When the existing
entry is a whole-value entry holding a live container (a prior
`write(target, None, d)` buffered the dict object `d`), `_dictCreate`
returns that live container and `d[key] = v` mutates its underlying
storage directly — the buffer itself is unchanged, it still references
`d`. When the existing entry is a whole-value entry that is not a dict,
the inner `_dictSet` raises `TypeError` (both `entry[key] = v` and
`id(key) not in entry` fail on a non-dict), which propagates. -/
def bufSetKeyed (b : Buffer) (t : Val) (k : Key) (v : Val) (h : Heap) :
    Except PyErr (Buffer × Heap) :=
  match dictGetBuf b t with
  | none => .ok (dictSetBuf b t (.table (alistSet [] k v)), h)
  | some (.table m) => .ok (dictSetBuf b t (.table (alistSet m k v)), h)
  | some (.whole w) =>
    match w with
    | .vdict m => .ok (dictSetBuf b t (.whole (.vdict (alistSet m k v))), h)
    | .ref b2 => .ok (b, heapSet h b2 (alistSet (h b2) k v))
    | _ => .error .typeError

/-- A whole-value buffer entry holding a live container: the one entry
shape through which keyed buffered operations alias directly onto
underlying storage. -/
def BufEntry.isWholeRef : BufEntry → Bool
  | .whole (.ref _) => true
  | _ => false

/-- No entry of the buffer is a whole-value entry holding a live
container, so keyed stores into the buffer never touch the heap. -/
def bufNoWholeRef (b : Buffer) : Bool :=
  b.all fun p => !p.2.isWholeRef

/-- The write is not a whole-value write of a live container; such a
write would place the container object itself into the write-buffer,
aliasing later keyed buffered writes for the same target directly onto
its storage. -/
def wrOk (key : Option Key) (v : Val) : Bool :=
  match key, v with
  | none, .ref _ => false
  | _, _ => true

/-- The engine's process-wide storage state: the heap of containers plus
the `commit.reads` read-memo and `commit.writes` write-buffer (each `none`
when no Transaction Context is active). -/
@[ext]
structure Ctx where
  heap : Heap
  reads : Option Buffer
  writes : Option Buffer

/-- Replace the contents of the container at address `a`. -/
def ctxSetHeap (c : Ctx) (a : Addr) (m : List (Key × Val)) : Ctx :=
  { c with heap := heapSet c.heap a m }

/-- Dereference one override-table entry, as `__checkOverride` does:
`missing` raises `KeyError` (uncaught there), `null` defers (`override is
not None` fails), `fn ret` calls the override and yields its return value. -/
def entryResult : OvEntry Val → Except PyErr Val
  | .missing => .error .keyError
  | .null => .ok .vnone
  | .fn ret => .ok ret

/-- Translation of `__checkOverride(data, code, *args)`: if `data` has no
`__concept__` attribute (every non-capability value), the `AttributeError`
is caught and `None` is returned; if the table exists but has no entry for
the operation, the `KeyError` escapes; otherwise the entry is consulted. -/
def checkOverride (data : Val) (op : Op) : Except PyErr Val :=
  match data with
  | .cap rdE wrE =>
    match op with
    | .rd => entryResult rdE
    | .wr => entryResult wrE
  | _ => .ok .vnone

/-- Translation of the wrapper produced by `checked(func)`: scan the
positional arguments in order, return the first override result that is
not `None`; if every argument yields `None` (no table, a `None` entry, or
a deferring override), fall through to the default body, whose result is
modelled by `dflt`. A `KeyError` escaping `__checkOverride` is not caught
here and propagates to the caller of the checked function. -/
def checkedRun (op : Op) (args : List Val) (dflt : Val) : Except PyErr Val :=
  match args with
  | [] => .ok dflt
  | v :: rest =>
    match checkOverride v op with
    | .error e => .error e
    | .ok r => if r.isNone then checkedRun op rest dflt else .ok r

/-- The buffer-consultation step of `read` (lines
`if key is None: return _dictGet(buf, dict)` /
`else: return _dictGet(_dictGet(buf, dict), key)` inside
`try: ... except KeyError: pass`): `ok none` models a caught `KeyError`
(fall through), `ok (some v)` a hit, `error` an uncaught `TypeError`
raised by `_dictGet(value, key)` when the buffered whole-value entry is
not a dict. A keyed lookup that finds a whole-value entry holding a dict
— a buffered dict literal, or a live container, in which case
`_dictGet(d, key)` reads through that container's current storage —
yields `d[key]`, with a missing key's `KeyError` caught as a fall-
through; a whole-value lookup that finds a keyed entry yields the inner
dict as the stored value. -/
def readBufLookup (b : Buffer) (t : Val) (key : Option Key) (h : Heap) :
    Except PyErr (Option Val) :=
  match key with
  | none =>
    match dictGetBuf b t with
    | none => .ok none
    | some (.whole v) => .ok (some v)
    | some (.table m) => .ok (some (.vdict m))
  | some k =>
    match dictGetBuf b t with
    | none => .ok none
    | some (.table m) =>
      match alistGet m k with
      | none => .ok none
      | some v => .ok (some v)
    | some (.whole w) =>
      match w with
      | .vdict m =>
        match alistGet m k with
        | none => .ok none
        | some v => .ok (some v)
      | .ref b2 =>
        match alistGet (h b2) k with
        | none => .ok none
        | some v => .ok (some v)
      | _ => .error .typeError

/-- The override-resolution tail of `read` (its final `try` block, after
the raw value has been fetched): consult the read override; a `KeyError`
escaping `__checkOverride` is caught by the surrounding
`except KeyError: pass`, so `read` returns `None`. If the override
produced a value, cache it in the read-memo — the source guard is
`if key is not None and commit.reads is not None:`, whose inner
`if key is None:` branch is dead code, so only keyed reads are ever
cached — and return it; otherwise return the raw value. -/
def readResolve (c : Ctx) (t : Val) (key : Option Key) (value : Val) :
    Except PyErr Val × Ctx :=
  match checkOverride value .rd with
  | .error .keyError => (.ok .vnone, c)
  | .error e => (.error e, c)
  | .ok result =>
    if result.isNone then (.ok value, c)
    else
      match key, c.reads with
      | some k, some r =>
        match bufSetKeyed r t k result c.heap with
        | .ok (r2, h2) => (.ok result, { c with reads := some r2, heap := h2 })
        | .error e => (.error e, c)
      | _, _ => (.ok result, c)

/-- Translation of `read(dict, key=None)`: consult the write-buffer, then
the read-memo (when a Transaction Context is active), then fall through to
storage — `dict[key]` for a keyed read (a missing key's `KeyError` is
caught and `read` returns `None`; subscripting a non-dict raises
`TypeError`), or the target value itself when `key` is `None` — and
resolve through the read override (`readResolve`). -/
def read (c : Ctx) (t : Val) (key : Option Key) : Except PyErr Val × Ctx :=
  match (match c.writes with
         | some w => readBufLookup w t key c.heap
         | none => .ok none) with
  | .error e => (.error e, c)
  | .ok (some v) => (.ok v, c)
  | .ok none =>
    match (match c.reads with
           | some r => readBufLookup r t key c.heap
           | none => .ok none) with
    | .error e => (.error e, c)
    | .ok (some v) => (.ok v, c)
    | .ok none =>
      match key with
      | some k =>
        match t with
        | .ref a =>
          match alistGet (c.heap a) k with
          | none => (.ok .vnone, c)
          | some value => readResolve c t key value
        | .vdict m =>
          match alistGet m k with
          | none => (.ok .vnone, c)
          | some value => readResolve c t key value
        | _ => (.error .typeError, c)
      | none => readResolve c t none t

/-- The `dict[key] = v` store-back used by the untransacted branch of
`write` (`if key is not None: dict[key] = v`): for a heap container the
contents are updated; storing into a dict literal mutates a temporary
object with no observable effect; with `key = None` nothing is stored. -/
def storeBack (c : Ctx) (t : Val) (key : Option Key) (v : Val) : Ctx :=
  match t, key with
  | .ref a, some k => ctxSetHeap c a (alistSet (c.heap a) k v)
  | _, _ => c

/-- The override-resolution tail of the untransacted `write` (its `try`
block once `prev` has been fetched): consult the write override with
`(prev, new)`; a `KeyError` escaping `__checkOverride` is caught by
`except KeyError:` which stores `new` and returns it; an override result
replaces `new` as the stored value; a deferring override stores `new`. -/
def writeResolve (c : Ctx) (t : Val) (key : Option Key) (prev new : Val) :
    Except PyErr Val × Ctx :=
  match checkOverride prev .wr with
  | .error .keyError => (.ok new, storeBack c t key new)
  | .error e => (.error e, c)
  | .ok result =>
    if result.isNone then (.ok new, storeBack c t key new)
    else (.ok result, storeBack c t key result)

/-- Translation of `write(dict, key=None, new=None)`: when a Transaction
Context is active, store `new` verbatim into the write-buffer — through
`bufSetKeyed` for a keyed write, which lands directly in the live
container's storage when the buffer's existing entry for `dict` is a
whole-value entry holding a live container — and return the result of
`_dictSet`, which has no `return` statement, i.e. `None`; no override is
consulted. Untransacted, fetch the previous value (`KeyError` for a
missing key is caught: store `new`, return `new`; subscripting a non-dict
raises `TypeError`) and resolve through the write override
(`writeResolve`). -/
def write (c : Ctx) (t : Val) (key : Option Key) (new : Val) :
    Except PyErr Val × Ctx :=
  match c.writes with
  | some w =>
    match key with
    | none => (.ok .vnone, { c with writes := some (dictSetBuf w t (.whole new)) })
    | some k =>
      match bufSetKeyed w t k new c.heap with
      | .ok (w2, h2) => (.ok .vnone, { c with writes := some w2, heap := h2 })
      | .error e => (.error e, c)
  | none =>
    match key with
    | some k =>
      match t with
      | .ref a =>
        match alistGet (c.heap a) k with
        | none => (.ok new, storeBack c t key new)
        | some prev => writeResolve c t key prev new
      | .vdict m =>
        match alistGet m k with
        | none => (.ok new, c)
        | some prev => writeResolve c t key prev new
      | _ => (.error .typeError, c)
    | none => writeResolve c t none t new

/-- The write-application loop of `commit` (`for dict in _dictKeys(w):
dict.update(_dictGet(w, dict))`), processing buffer entries in insertion
order. A keyed entry merges its pairs into the container; a whole-value
entry is passed to `dict.update`, which merges if it is a dict (literal or
another container) and raises `TypeError` otherwise; a non-dict target has
no `update` attribute (`AttributeError`); updating a dict literal mutates
a temporary object with no observable effect. An exception aborts the loop
with the updates so far already applied (partial commit), which the paired
`Ctx` preserves. -/
def commitWrites : Buffer → Ctx → Option PyErr × Ctx
  | [], c => (none, c)
  | (t, e) :: rest, c =>
    match t with
    | .ref a =>
      match e with
      | .table m => commitWrites rest (ctxSetHeap c a (dictUpdate (c.heap a) m))
      | .whole w =>
        match w with
        | .vdict m => commitWrites rest (ctxSetHeap c a (dictUpdate (c.heap a) m))
        | .ref b => commitWrites rest (ctxSetHeap c a (dictUpdate (c.heap a) (c.heap b)))
        | _ => (some .typeError, c)
    | .vdict _ => commitWrites rest c
    | _ => (some .attrError, c)

/-- An Effect Set, the `(result, read_journal, write_journal)` triple
returned by `journal`. -/
abbrev EffSet := Val × Buffer × Buffer

/-- Translation of `commit(result_and_write_journal, dont=False)`: if
`dont` is true just return the result; otherwise apply every buffered
write (`commitWrites`) and return the result. The read journal is
ignored. -/
def commit (es : EffSet) (dont : Bool) (c : Ctx) : Except PyErr Val × Ctx :=
  if dont then (.ok es.1, c)
  else
    match commitWrites es.2.2 c with
    | (none, c2) => (.ok es.1, c2)
    | (some e, c2) => (.error e, c2)

/-- A deep-embedded optimizer strategy (the `do` argument of `on_goal`).
`pure v` and `sfail n` model strategy bodies that return a constant or
raise; `callNext` models a body that invokes its computation argument once
and returns its result; `combine prev d` is the closure built by `on_goal`
when `d` is registered while `prev` is already registered. -/
inductive Strat where
  | pure (v : Val)
  | sfail (n : Nat)
  | callNext
  | combine (prev d : Strat)

/-- The full process state: the storage/transaction state `ctx` plus the
`goal` globals `goal.do` (`gdo`), `goal.in_do` (`inDo`), `goal.in_goal`
(`inGoal`) and `goal.journaled` (`journaled`). -/
@[ext]
structure St where
  ctx : Ctx
  gdo : Option Strat
  inDo : Bool
  inGoal : Bool
  journaled : Option EffSet

/-- Translation of `on_goal(do)`: a no-op unless inside a `goal` call
(`goal.in_goal`) and not inside an optimizer's own execution
(`goal.in_do`); registers `do` if no optimizer is registered yet and
otherwise wraps the existing registration so that the earlier one stays
outermost (`combine`). -/
def onGoalSt (st : St) (d : Strat) : St :=
  if !st.inGoal then st
  else if st.inDo then st
  else
    match st.gdo with
    | none => { st with gdo := some d }
    | some prev => { st with gdo := some (.combine prev d) }

/-- A deep-embedded computation, the `func` run by `journal`/`goal`:
it can return, raise, write, read (discarding or branching on the value),
and register an optimizer via `on_goal`. -/
inductive Prog where
  | ret (v : Val)
  | failP (n : Nat)
  | wrThen (t : Val) (key : Option Key) (v : Val) (rest : Prog)
  | rdThen (t : Val) (key : Option Key) (rest : Prog)
  | rdCase (t : Val) (key : Option Key) (cmp : Val) (pEq pNe : Prog)
  | onGoalP (d : Strat) (rest : Prog)

/-- The computation performs no whole-value write of a live container
(every write it performs satisfies `wrOk`). -/
def Prog.noWholeRefWrite : Prog → Bool
  | .ret _ => true
  | .failP _ => true
  | .wrThen _ key v rest => wrOk key v && rest.noWholeRefWrite
  | .rdThen _ _ rest => rest.noWholeRefWrite
  | .rdCase _ _ _ pEq pNe => pEq.noWholeRefWrite && pNe.noWholeRefWrite
  | .onGoalP _ rest => rest.noWholeRefWrite

/-- Run a computation in the current state. Reads and writes go through
the `read`/`write` primitives; an exception raised by any step aborts the
computation and propagates, leaving the state as that step left it. -/
def run : Prog → St → Except PyErr Val × St
  | .ret v, st => (.ok v, st)
  | .failP n, st => (.error (.userError n), st)
  | .wrThen t key v rest, st =>
    match write st.ctx t key v with
    | (.ok _, c) => run rest { st with ctx := c }
    | (.error e, c) => (.error e, { st with ctx := c })
  | .rdThen t key rest, st =>
    match read st.ctx t key with
    | (.ok _, c) => run rest { st with ctx := c }
    | (.error e, c) => (.error e, { st with ctx := c })
  | .rdCase t key cmp pEq pNe, st =>
    match read st.ctx t key with
    | (.ok v, c) =>
      if Val.beq v cmp then run pEq { st with ctx := c }
      else run pNe { st with ctx := c }
    | (.error e, c) => (.error e, { st with ctx := c })
  | .onGoalP d rest, st => run rest (onGoalSt st d)

/-- The context-installation step at the top of `journal`: save nothing
yet, just install fresh empty read and write journals (the saved previous
context is handled by `journal` itself). -/
def journalFresh (st : St) : St :=
  { st with ctx := { st.ctx with reads := some [], writes := some [] } }

/-- Translation of `journal(func, *args)`: save the active Transaction
Context, install a fresh one, run the computation, and on normal return
capture `(result, read_journal, write_journal)` and restore the saved
context. There is no `try`/`finally` in the source: when the computation
raises, the exception propagates with the fresh (partially filled)
context still installed — the saved context is not restored. -/
def journal (f : Prog) (st : St) : Except PyErr EffSet × St :=
  let prevR := st.ctx.reads
  let prevW := st.ctx.writes
  match run f (journalFresh st) with
  | (.ok result, st2) =>
    (.ok (result, st2.ctx.reads.getD [], st2.ctx.writes.getD []),
     { st2 with ctx := { st2.ctx with reads := prevR, writes := prevW } })
  | (.error e, st2) => (.error e, st2)

/-- Structural weight of a strategy, used as the termination measure for
strategy dispatch. -/
def Strat.weight : Strat → Nat
  | .pure _ => 1
  | .sfail _ => 1
  | .callNext => 1
  | .combine p d => 1 + p.weight + d.weight

/-- The computation argument handed to a strategy body when `goal`
dispatches: either the original computation, or the synthetic `redo`
closure built by `on_goal`'s `combine`, which captures the strategy to
delegate to, the measure, and the computation. -/
inductive NextComp where
  | orig (f : Prog)
  | redo (d : Strat) (m : Val → Int) (f : NextComp)

/-- Strategy weight carried by a `NextComp` (termination measure). -/
def NextComp.weight : NextComp → Nat
  | .orig _ => 0
  | .redo d _ f => 1 + d.weight + f.weight

mutual

/-- Apply a strategy to `(measure, func)`, as `goal.do(measure, func,
*args)` does: `combine prev d` runs `prev` with the synthetic `redo`
computation in place of `func` (so the earlier-registered strategy is
outermost and its "next computation" delegates to `d`); `callNext` invokes
its computation argument once. -/
def applyStrat (s : Strat) (m : Val → Int) (f : NextComp) (st : St) :
    Except PyErr Val × St :=
  match s with
  | .pure v => (.ok v, st)
  | .sfail n => (.error (.userError n), st)
  | .callNext => runNext f st
  | .combine prev d => applyStrat prev m (.redo d m f) st
termination_by (s.weight + f.weight, s.weight)
decreasing_by
  all_goals simp [Strat.weight, NextComp.weight, Prod.lex_def]
  all_goals omega

/-- Invoke a strategy's computation argument: the original computation is
run directly; a `redo` closure calls the delegated-to strategy with the
measure and computation it captured. -/
def runNext (f : NextComp) (st : St) : Except PyErr Val × St :=
  match f with
  | .orig p => run p st
  | .redo d m f2 => applyStrat d m f2 st
termination_by (f.weight, 0)
decreasing_by
  all_goals simp [Strat.weight, NextComp.weight, Prod.lex_def]

end

/-- Translation of `goal(measure, func, *args)`: save `goal.do` and
`goal.in_goal`, clear them, run `journal(func)` and store the baseline
Effect Set in `goal.journaled`; if an optimizer was registered during the
run, invoke it under the `goal.in_do` reentrancy guard, restore the saved
state and return its result; otherwise restore the saved state and commit
the baseline. As in `journal`, nothing is restored on the exception
paths. -/
def goal (m : Val → Int) (f : Prog) (st : St) : Except PyErr Val × St :=
  let prevDo := st.gdo
  let prevInGoal := st.inGoal
  match journal f { st with gdo := none, inGoal := true } with
  | (.error e, st1) => (.error e, st1)
  | (.ok j, st1) =>
    match st1.gdo with
    | some d =>
      let prevInDo := st1.inDo
      match applyStrat d m (.orig f) { st1 with journaled := some j, inDo := true } with
      | (.error e, st3) => (.error e, st3)
      | (.ok r, st3) =>
        (.ok r, { st3 with inDo := prevInDo, gdo := prevDo, inGoal := prevInGoal })
    | none =>
      match commit j false st1.ctx with
      | (res, c) =>
        (res, { st1 with journaled := some j, gdo := prevDo, inGoal := prevInGoal, ctx := c })

/-- Translation of `SelfWritingDict.__getattr__(self, key)`: read the
value under `key` from the wrapped dict, immediately write the value just
read back to the same key (ignoring `write`'s return value), and return
the read value. -/
def SelfWritingDict.getattr (c : Ctx) (a : Addr) (k : Key) :
    Except PyErr Val × Ctx :=
  match read c (.ref a) (some k) with
  | (.error e, c2) => (.error e, c2)
  | (.ok value, c2) =>
    match write c2 (.ref a) (some k) value with
    | (.error e, c3) => (.error e, c3)
    | (.ok _, c3) => (.ok value, c3)

/-- The `goal` registration globals with strategies kept higher-order
(actual closures, as in the source): `gdo` is `goal.do`, `inGoal` is
`goal.in_goal`, `inDo` is `goal.in_do`. `M` is the type of measures, `R`
the type of computation results; a strategy maps a measure and a
zero-argument "next computation" to a result, and the computations handed
to strategies are thunks `Unit → R`. -/
structure GoalReg (M R : Type) where
  gdo : Option (M → (Unit → R) → R)
  inGoal : Bool
  inDo : Bool

/-- Higher-order translation of `on_goal(do)` (same logic as `onGoalSt`,
with the `combine`/`redo` closures kept as actual functions): when a
strategy is already registered, the new registration is wrapped so that
the previously registered strategy runs first and receives a synthetic
computation that delegates to the new one. -/
def onGoalFn {M R : Type} (st : GoalReg M R) (d : M → (Unit → R) → R) :
    GoalReg M R :=
  if !st.inGoal then st
  else if st.inDo then st
  else
    match st.gdo with
    | none => { st with gdo := some d }
    | some prev =>
      { st with gdo := some (fun measure func => prev measure (fun _ => d measure func)) }

/-- The dispatch step of `goal` (`if goal.do is not None: result =
goal.do(measure, func, *args)`), with the no-registration fallback result
abstracted as `fallback`. -/
def dispatchFn {M R : Type} (st : GoalReg M R) (m : M) (f : Unit → R)
    (fallback : R) : R :=
  match st.gdo with
  | some d => d m f
  | none => fallback

/-- The selection loop of `minimize`'s `repeat` strategy (its `for i in
range(tries)` loop): fold over the Effect Sets produced by the successive
`journal(func, *args)` calls, keeping the one with the strictly smallest
measure (`if m < bestM`), so ties keep the earlier Effect Set.
`commit(j, dont=True)` is `j`'s result component. -/
def repeatLoop (measure : Val → Int) : List EffSet → EffSet × Int → EffSet × Int
  | [], best => best
  | j :: rest, (bJ, bM) =>
    let m := measure j.1
    if m < bM then repeatLoop measure rest (j, m)
    else repeatLoop measure rest (bJ, bM)

/-- Translation of `minimize`'s `repeat` strategy body: start from the
baseline Effect Set (`goal.journaled`) and its measure, fold the
resampled runs through the selection loop, then commit the retained best
Effect Set and return its result. The Effect Sets returned by the
successive `journal(func, *args)` calls are abstracted as the list
`runs` (the injected random source makes each run's outcome an input). -/
def minimizeRepeat (measure : Val → Int) (baseline : EffSet)
    (runs : List EffSet) (c : Ctx) : Except PyErr Val × Ctx :=
  let best := repeatLoop measure runs (baseline, measure baseline.1)
  commit best.1 false c

/-! ## State-preservation lemmas -/

/-- Storing a non-whole-container entry into a safe buffer keeps it safe. -/
theorem bufNoWholeRef_dictSetBuf (t : Val) (e : BufEntry)
    (he : e.isWholeRef = false) :
    ∀ b : Buffer, bufNoWholeRef b = true →
      bufNoWholeRef (dictSetBuf b t e) = true := by
  intro b
  induction b with
  | nil =>
    intro _
    simp [dictSetBuf, bufNoWholeRef, he]
  | cons p rest ih =>
    intro hb
    rcases p with ⟨t2, e2⟩
    simp only [bufNoWholeRef, List.all_cons, Bool.and_eq_true] at hb
    by_cases ht : Val.beq t2 t = true
    · simp only [dictSetBuf, ht, if_true, bufNoWholeRef, List.all_cons,
        Bool.and_eq_true]
      exact ⟨by simp [he], hb.2⟩
    · have h2 := ih hb.2
      simp only [bufNoWholeRef] at h2
      simp [dictSetBuf, ht, bufNoWholeRef, hb.1, h2]

/-- Every entry found in a safe buffer is itself safe. -/
theorem dictGetBuf_safe (t : Val) (e : BufEntry) :
    ∀ b : Buffer, bufNoWholeRef b = true → dictGetBuf b t = some e →
      e.isWholeRef = false := by
  intro b
  induction b with
  | nil =>
    intro _ hg
    simp [dictGetBuf] at hg
  | cons p rest ih =>
    intro hb hg
    rcases p with ⟨t2, e2⟩
    simp only [bufNoWholeRef, List.all_cons, Bool.and_eq_true] at hb
    simp only [dictGetBuf] at hg
    by_cases ht : Val.beq t2 t = true
    · rw [if_pos ht] at hg
      injection hg with hg2
      subst hg2
      simpa using hb.1
    · rw [if_neg ht] at hg
      exact ih hb.2 hg

/-- With a safe buffer, the keyed buffer store (`bufSetKeyed`) can never
hit the live-container aliasing case: on success it leaves the heap
unchanged and the buffer safe. -/
theorem bufSetKeyed_safe (t : Val) (k : Key) (v : Val) (h : Heap)
    (b : Buffer) (hb : bufNoWholeRef b = true) (b2 : Buffer) (h2 : Heap)
    (hok : bufSetKeyed b t k v h = .ok (b2, h2)) :
    h2 = h ∧ bufNoWholeRef b2 = true := by
  unfold bufSetKeyed at hok
  cases hg : dictGetBuf b t with
  | none =>
    rw [hg] at hok
    injection hok with hp
    injection hp with hp1 hp2
    subst hp2
    refine ⟨rfl, ?_⟩
    rw [← hp1]
    exact bufNoWholeRef_dictSetBuf t (.table (alistSet [] k v)) rfl b hb
  | some e =>
    rw [hg] at hok
    cases e with
    | table m =>
      injection hok with hp
      injection hp with hp1 hp2
      subst hp2
      refine ⟨rfl, ?_⟩
      rw [← hp1]
      exact bufNoWholeRef_dictSetBuf t (.table (alistSet m k v)) rfl b hb
    | whole w =>
      have hsafe := dictGetBuf_safe t (.whole w) b hb hg
      cases w with
      | vdict m =>
        injection hok with hp
        injection hp with hp1 hp2
        subst hp2
        refine ⟨rfl, ?_⟩
        rw [← hp1]
        exact bufNoWholeRef_dictSetBuf t (.whole (.vdict (alistSet m k v))) rfl b hb
      | ref b3 => simp [BufEntry.isWholeRef] at hsafe
      | int n => exact Except.noConfusion hok
      | vnone => exact Except.noConfusion hok
      | cap rdE wrE => exact Except.noConfusion hok

/-- When the read-memo is safe (it holds no whole-container entry),
resolving a read override touches neither the heap nor the write-buffer,
and the read-memo stays safe. -/
theorem readResolve_heap_writes (c : Ctx) (t : Val) (key : Option Key) (value : Val)
    (hr : ∀ r, c.reads = some r → bufNoWholeRef r = true) :
    (readResolve c t key value).2.heap = c.heap ∧
    (readResolve c t key value).2.writes = c.writes ∧
    (∀ r, (readResolve c t key value).2.reads = some r → bufNoWholeRef r = true) := by
  unfold readResolve
  repeat' split
  all_goals try exact ⟨rfl, rfl, hr⟩
  rename_i result hco hn key2 xb k r hkr xo r2 h2 hok
  obtain ⟨hh2, hsafe⟩ := bufSetKeyed_safe t k result c.heap r (hr r hkr) r2 h2 hok
  refine ⟨hh2, rfl, ?_⟩
  intro r3 hr3
  injection hr3 with hr4
  rw [← hr4]
  exact hsafe

/-- When the read-memo is safe, `read` touches neither the heap nor the
write-buffer, and the read-memo stays safe. -/
theorem read_heap_writes (c : Ctx) (t : Val) (key : Option Key)
    (hr : ∀ r, c.reads = some r → bufNoWholeRef r = true) :
    (read c t key).2.heap = c.heap ∧ (read c t key).2.writes = c.writes ∧
    (∀ r, (read c t key).2.reads = some r → bufNoWholeRef r = true) := by
  unfold read
  (repeat' split) <;> first
    | exact ⟨rfl, rfl, hr⟩
    | exact readResolve_heap_writes _ _ _ _ hr

/-- With a Transaction Context active and a safe write-buffer, `write`
leaves the heap and the read-memo untouched and keeps a write-buffer
installed; the buffer stays safe as long as the write itself is not a
whole-container write. -/
theorem write_buffered (c : Ctx) (w : Buffer) (h : c.writes = some w)
    (hw : bufNoWholeRef w = true) (t : Val) (key : Option Key) (v : Val) :
    (write c t key v).2.heap = c.heap ∧ (write c t key v).2.reads = c.reads ∧
    ∃ w2, (write c t key v).2.writes = some w2 ∧
      (wrOk key v = true → bufNoWholeRef w2 = true) := by
  cases key with
  | none =>
    refine ⟨?_, ?_, dictSetBuf w t (.whole v), ?_, ?_⟩
    · simp only [write, h]
    · simp only [write, h]
    · simp only [write, h]
    · intro hkv
      refine bufNoWholeRef_dictSetBuf t (.whole v) ?_ w hw
      cases v <;> first | rfl | simp [wrOk] at hkv
  | some k =>
    cases hb : bufSetKeyed w t k v c.heap with
    | ok pr =>
      rcases pr with ⟨w2, h2⟩
      obtain ⟨hh2, hsafe⟩ := bufSetKeyed_safe t k v c.heap w hw w2 h2 hb
      refine ⟨?_, ?_, w2, ?_, fun _ => hsafe⟩
      · simp only [write, h, hb]
        exact hh2
      · simp only [write, h, hb]
      · simp only [write, h, hb]
    | error e =>
      refine ⟨?_, ?_, w, ?_, fun _ => hw⟩ <;> simp only [write, h, hb]

/-- Registering an optimizer does not touch the storage state. -/
theorem onGoalSt_ctx (st : St) (d : Strat) : (onGoalSt st d).ctx = st.ctx := by
  unfold onGoalSt
  split
  · rfl
  · split
    · rfl
    · split <;> rfl

/-- Registering an optimizer does not touch the `in_do`/`in_goal` flags. -/
theorem onGoalSt_flags (st : St) (d : Strat) :
    (onGoalSt st d).inDo = st.inDo ∧ (onGoalSt st d).inGoal = st.inGoal := by
  unfold onGoalSt
  split
  · exact ⟨rfl, rfl⟩
  · split
    · exact ⟨rfl, rfl⟩
    · split <;> exact ⟨rfl, rfl⟩

/-- With a Transaction Context active whose buffers are safe, a
computation that performs no whole-container write leaves the heap
untouched and keeps the installed buffers safe: every one of its writes
really is buffered. -/
theorem run_preserves_heap (p : Prog) :
    ∀ (st : St) (w : Buffer), st.ctx.writes = some w → bufNoWholeRef w = true →
      (∀ r, st.ctx.reads = some r → bufNoWholeRef r = true) →
      p.noWholeRefWrite = true →
      (run p st).2.ctx.heap = st.ctx.heap ∧
      (∃ w2, (run p st).2.ctx.writes = some w2 ∧ bufNoWholeRef w2 = true) ∧
      (∀ r, (run p st).2.ctx.reads = some r → bufNoWholeRef r = true) := by
  induction p with
  | ret v => intro st w h hw hr _; exact ⟨rfl, ⟨w, h, hw⟩, hr⟩
  | failP n => intro st w h hw hr _; exact ⟨rfl, ⟨w, h, hw⟩, hr⟩
  | wrThen t key v rest ih =>
    intro st w h hw hr hp
    simp only [Prog.noWholeRefWrite, Bool.and_eq_true] at hp
    obtain ⟨hkv, hp2⟩ := hp
    simp only [run]
    obtain ⟨hh, hrd, w2, hw2, hsf⟩ := write_buffered st.ctx w h hw t key v
    rcases hwr : write st.ctx t key v with ⟨res, c⟩
    rw [hwr] at hh hrd hw2
    cases res with
    | ok x =>
      obtain ⟨ih1, ih2, ih3⟩ := ih { st with ctx := c } w2 hw2 (hsf hkv)
        (fun r hr2 => hr r (hrd.symm.trans hr2).symm.symm) hp2
      exact ⟨ih1.trans hh, ih2, ih3⟩
    | error e =>
      exact ⟨hh, ⟨w2, hw2, hsf hkv⟩, fun r hr2 => hr r (hrd.symm.trans hr2).symm.symm⟩
  | rdThen t key rest ih =>
    intro st w h hw hr hp
    simp only [Prog.noWholeRefWrite] at hp
    simp only [run]
    obtain ⟨hh, hwp, hrp⟩ := read_heap_writes st.ctx t key hr
    rcases hrd : (read st.ctx t key : Except PyErr Val × Ctx) with ⟨res, c⟩
    rw [hrd] at hh hwp hrp
    cases res with
    | ok x =>
      obtain ⟨ih1, ih2, ih3⟩ := ih { st with ctx := c } w (hwp.trans h) hw hrp hp
      exact ⟨ih1.trans hh, ih2, ih3⟩
    | error e => exact ⟨hh, ⟨w, hwp.trans h, hw⟩, hrp⟩
  | rdCase t key cmp pEq pNe ihEq ihNe =>
    intro st w h hw hr hp
    simp only [Prog.noWholeRefWrite, Bool.and_eq_true] at hp
    simp only [run]
    obtain ⟨hh, hwp, hrp⟩ := read_heap_writes st.ctx t key hr
    rcases hrd : (read st.ctx t key : Except PyErr Val × Ctx) with ⟨res, c⟩
    rw [hrd] at hh hwp hrp
    cases res with
    | ok x =>
      by_cases hc : Val.beq x cmp = true
      · simp only [hc, if_true]
        obtain ⟨ih1, ih2, ih3⟩ := ihEq { st with ctx := c } w (hwp.trans h) hw hrp hp.1
        exact ⟨ih1.trans hh, ih2, ih3⟩
      · simp only [hc, if_false]
        obtain ⟨ih1, ih2, ih3⟩ := ihNe { st with ctx := c } w (hwp.trans h) hw hrp hp.2
        exact ⟨ih1.trans hh, ih2, ih3⟩
    | error e => exact ⟨hh, ⟨w, hwp.trans h, hw⟩, hrp⟩
  | onGoalP d rest ih =>
    intro st w h hw hr hp
    simp only [Prog.noWholeRefWrite] at hp
    simp only [run]
    have hc := onGoalSt_ctx st d
    obtain ⟨ih1, ih2, ih3⟩ := ih (onGoalSt st d) w (by rw [hc]; exact h) hw
      (by rw [hc]; exact hr) hp
    refine ⟨?_, ih2, ih3⟩
    rw [ih1, hc]

/-- Running a computation never changes the `goal.in_do` and
`goal.in_goal` flags (only `goal` itself manipulates them). -/
theorem run_flags (p : Prog) : ∀ st : St,
    (run p st).2.inDo = st.inDo ∧ (run p st).2.inGoal = st.inGoal := by
  induction p with
  | ret v => intro st; exact ⟨rfl, rfl⟩
  | failP n => intro st; exact ⟨rfl, rfl⟩
  | wrThen t key v rest ih =>
    intro st
    simp only [run]
    rcases hw : write st.ctx t key v with ⟨res, c⟩
    cases res with
    | ok x => exact ih { st with ctx := c }
    | error e => exact ⟨rfl, rfl⟩
  | rdThen t key rest ih =>
    intro st
    simp only [run]
    rcases hr : (read st.ctx t key : Except PyErr Val × Ctx) with ⟨res, c⟩
    cases res with
    | ok x => exact ih { st with ctx := c }
    | error e => exact ⟨rfl, rfl⟩
  | rdCase t key cmp pEq pNe ihEq ihNe =>
    intro st
    simp only [run]
    rcases hr : (read st.ctx t key : Except PyErr Val × Ctx) with ⟨res, c⟩
    cases res with
    | ok x =>
      by_cases hc : Val.beq x cmp = true
      · simp only [hc, if_true]; exact ihEq { st with ctx := c }
      · simp only [hc, if_false]; exact ihNe { st with ctx := c }
    | error e => exact ⟨rfl, rfl⟩
  | onGoalP d rest ih =>
    intro st
    simp only [run]
    obtain ⟨h1, h2⟩ := ih (onGoalSt st d)
    obtain ⟨h3, h4⟩ := onGoalSt_flags st d
    exact ⟨h1.trans h3, h2.trans h4⟩

/-- `journal` never changes the `goal.in_do` flag. -/
theorem journal_inDo (f : Prog) (st : St) : (journal f st).2.inDo = st.inDo := by
  unfold journal
  rcases hr : run f (journalFresh st) with ⟨res, st2⟩
  have h := (run_flags f (journalFresh st)).1
  rw [hr] at h
  cases res with
  | ok result => exact h
  | error e => exact h


/-! ## Claim theorems -/

/-- C1 counterexample: a keyed write inside an active Transaction Context
mutates the container's underlying storage when the write-buffer already
holds a whole-value entry buffering the container itself (a prior
`write(c, None, c)`): `_dictCreate` returns the live container and
`_dictSet` performs `c[k] = v` directly. Consequently a successful
journaled run of `write(c, None, c); write(c, 0, 5)` changes what a
direct, untransacted `read(c, 0)` returns before any commit is applied. -/
theorem claim_C1_counterexample :
    (write ⟨fun _ => [], none, some [(.ref 0, .whole (.ref 0))]⟩
        (.ref 0) (some 0) (.int 5)).2.heap 0
      ≠ (⟨fun _ => [], none, some [(.ref 0, .whole (.ref 0))]⟩ : Ctx).heap 0
    ∧ (read (journal
          (.wrThen (.ref 0) none (.ref 0)
            (.wrThen (.ref 0) (some 0) (.int 5) (.ret .vnone)))
          ⟨⟨fun _ => [], none, none⟩, none, false, false, none⟩).2.ctx
        (.ref 0) (some 0)).1
      ≠ (read (⟨⟨fun _ => [], none, none⟩, none, false, false, none⟩ : St).ctx
          (.ref 0) (some 0)).1 := by
  have h1 : (write ⟨fun _ => [], none, some [(.ref 0, .whole (.ref 0))]⟩
      (.ref 0) (some 0) (.int 5)).2.heap 0 = [(0, .int 5)] := by
    simp [write, bufSetKeyed, dictGetBuf, Val.beq, heapSet, alistSet]
  have h2 : (read (journal
        (.wrThen (.ref 0) none (.ref 0)
          (.wrThen (.ref 0) (some 0) (.int 5) (.ret .vnone)))
        ⟨⟨fun _ => [], none, none⟩, none, false, false, none⟩).2.ctx
      (.ref 0) (some 0)).1 = .ok (.int 5) := by
    simp [journal, journalFresh, run, write, read, readResolve, readBufLookup,
      bufSetKeyed, dictGetBuf, dictSetBuf, Val.beq, heapSet, alistSet, alistGet,
      checkOverride, entryResult, Val.isNone]
  constructor
  · rw [h1]
    intro h
    exact List.noConfusion h
  · rw [h2]
    intro h
    have h3 : (Except.ok (Val.int 5) : Except PyErr Val) = .ok .vnone := h.symm.symm
    injection h3 with h4
    exact Val.noConfusion h4

/-- C1 (amended): a `write` performed while a Transaction Context is
active updates only the write-buffer and never mutates underlying storage
or the read-memo, provided the write-buffer holds no whole-value entry
buffering a live container (such an entry — created by a whole-value
write of a container value — makes keyed writes for that target land
directly in the container's storage); and for a computation that performs
no whole-value write of a live container, a successful journaled run
leaves the whole storage state exactly as it was, so a direct,
untransacted `read` returns the same value before and after the run,
until `commit` is applied to the returned Effect Set. -/
theorem claim_C1_amended_buffered_write_isolation :
    (∀ (c : Ctx) (w : Buffer), c.writes = some w → bufNoWholeRef w = true →
      ∀ (t : Val) (key : Option Key) (v : Val),
        (write c t key v).2.heap = c.heap ∧ (write c t key v).2.reads = c.reads)
    ∧ (∀ (st : St) (f : Prog), f.noWholeRefWrite = true →
        ∀ (j : EffSet) (st2 : St), journal f st = (.ok j, st2) →
        st2.ctx = st.ctx ∧ ∀ (t : Val) (key : Option Key),
          read st2.ctx t key = read st.ctx t key) := by
  constructor
  · intro c w h hw t key v
    obtain ⟨hh, hr, _⟩ := write_buffered c w h hw t key v
    exact ⟨hh, hr⟩
  · intro st f hf j st2 h
    have hpres := run_preserves_heap f (journalFresh st) [] rfl rfl
      (fun r hr2 => by injection hr2 with hr3; rw [← hr3]; rfl) hf
    have hctx : st2.ctx = st.ctx := by
      unfold journal at h
      rcases hr : run f (journalFresh st) with ⟨res, stR⟩
      rw [hr] at h hpres
      cases res with
      | error e => simp at h
      | ok result =>
        injection h with h1 h2
        subst h2
        refine Ctx.ext ?_ rfl rfl
        exact hpres.1
    exact ⟨hctx, fun t key => by rw [hctx]⟩

/-- C1 (amended) witness: a concrete buffered write on a safe buffer
leaves heap and read-memo unchanged, and a concrete successful journaled
run without whole-container writes leaves the storage state and hence a
direct read unchanged. -/
theorem claim_C1_amended_witness :
    ((write ⟨fun _ => [], none, some []⟩ (.ref 0) (some 0) (.int 5)).2.heap
        = (⟨fun _ => [], none, some []⟩ : Ctx).heap
      ∧ (write ⟨fun _ => [], none, some []⟩ (.ref 0) (some 0) (.int 5)).2.reads
        = (⟨fun _ => [], none, some []⟩ : Ctx).reads)
    ∧ ((⟨⟨fun _ => [], none, none⟩, none, false, false, none⟩ : St).ctx
        = (⟨⟨fun _ => [], none, none⟩, none, false, false, none⟩ : St).ctx
      ∧ read (⟨⟨fun _ => [], none, none⟩, none, false, false, none⟩ : St).ctx
            (.ref 0) (some 0)
          = read (⟨⟨fun _ => [], none, none⟩, none, false, false, none⟩ : St).ctx
            (.ref 0) (some 0)) :=
  ⟨claim_C1_amended_buffered_write_isolation.1 ⟨fun _ => [], none, some []⟩ []
      rfl rfl (.ref 0) (some 0) (.int 5),
   (claim_C1_amended_buffered_write_isolation.2
      ⟨⟨fun _ => [], none, none⟩, none, false, false, none⟩
      (.wrThen (.ref 0) (some 0) (.int 5) (.ret .vnone)) rfl
      (.vnone, [], [(.ref 0, .table [(0, .int 5)])])
      ⟨⟨fun _ => [], none, none⟩, none, false, false, none⟩ rfl).1,
   (claim_C1_amended_buffered_write_isolation.2
      ⟨⟨fun _ => [], none, none⟩, none, false, false, none⟩
      (.wrThen (.ref 0) (some 0) (.int 5) (.ret .vnone)) rfl
      (.vnone, [], [(.ref 0, .table [(0, .int 5)])])
      ⟨⟨fun _ => [], none, none⟩, none, false, false, none⟩ rfl).2
      (.ref 0) (some 0)⟩

/-- C2 counterexample: a journaled computation that performs
`write(c, None, c)`, then `write(c, 0, 5)`, then raises, durably alters
key `0` of `c` in underlying storage even though the run failed and
nothing was committed — the keyed write landed in the live container
through the whole-value buffer entry. -/
theorem claim_C2_counterexample :
    (journal (.wrThen (.ref 0) none (.ref 0)
        (.wrThen (.ref 0) (some 0) (.int 5) (.failP 7)))
        ⟨⟨fun _ => [], none, none⟩, none, false, false, none⟩).1
      = .error (.userError 7)
    ∧ (journal (.wrThen (.ref 0) none (.ref 0)
        (.wrThen (.ref 0) (some 0) (.int 5) (.failP 7)))
        ⟨⟨fun _ => [], none, none⟩, none, false, false, none⟩).2.ctx.heap 0
      ≠ (⟨⟨fun _ => [], none, none⟩, none, false, false, none⟩ : St).ctx.heap 0 := by
  have hev : (journal (.wrThen (.ref 0) none (.ref 0)
        (.wrThen (.ref 0) (some 0) (.int 5) (.failP 7)))
        ⟨⟨fun _ => [], none, none⟩, none, false, false, none⟩).1
      = .error (.userError 7)
    ∧ (journal (.wrThen (.ref 0) none (.ref 0)
        (.wrThen (.ref 0) (some 0) (.int 5) (.failP 7)))
        ⟨⟨fun _ => [], none, none⟩, none, false, false, none⟩).2.ctx.heap 0
      = [(0, .int 5)] := by
    constructor <;>
      simp [journal, journalFresh, run, write, bufSetKeyed, dictGetBuf,
        dictSetBuf, Val.beq, heapSet, alistSet]
  refine ⟨hev.1, ?_⟩
  rw [hev.2]
  intro h
  exact List.noConfusion h

/-- C2 (amended): if a computation that performs no whole-value write of
a live container fails before returning inside `journal`, no Effect Set
is produced, the original failure propagates unchanged to `journal`'s
caller, and the underlying storage is untouched — every write the
computation performed was buffered, and the buffer was never applied. -/
theorem claim_C2_amended_no_commit_on_failure (f : Prog) (st : St)
    (e : PyErr) (st2 : St) (hf : f.noWholeRefWrite = true)
    (h : run f (journalFresh st) = (.error e, st2)) :
    journal f st = (.error e, st2) ∧ st2.ctx.heap = st.ctx.heap := by
  have hpres := run_preserves_heap f (journalFresh st) [] rfl rfl
    (fun r hr2 => by injection hr2 with hr3; rw [← hr3]; rfl) hf
  rw [h] at hpres
  refine ⟨?_, hpres.1⟩
  unfold journal
  rw [h]

/-- C2 (amended) witness: a computation that buffers one keyed write and
then raises makes `journal` propagate the failure, with the write still
sitting in the never-applied buffer and the heap unchanged. -/
theorem claim_C2_amended_witness :
    journal (.wrThen (.ref 0) (some 0) (.int 9) (.failP 7))
        ⟨⟨fun _ => [], none, none⟩, none, false, false, none⟩
      = (.error (.userError 7),
         ⟨⟨fun _ => [], some [], some [(.ref 0, .table [(0, .int 9)])]⟩,
          none, false, false, none⟩)
    ∧ (⟨⟨fun _ => [], some [], some [(.ref 0, .table [(0, .int 9)])]⟩,
        none, false, false, none⟩ : St).ctx.heap
      = (⟨⟨fun _ => [], none, none⟩, none, false, false, none⟩ : St).ctx.heap :=
  claim_C2_amended_no_commit_on_failure
    (.wrThen (.ref 0) (some 0) (.int 9) (.failP 7))
    ⟨⟨fun _ => [], none, none⟩, none, false, false, none⟩
    (.userError 7)
    ⟨⟨fun _ => [], some [], some [(.ref 0, .table [(0, .int 9)])]⟩,
     none, false, false, none⟩
    rfl rfl

/-- C3 counterexample: entering `journal` with no Transaction Context
active and running a computation that raises leaves the fresh write-buffer
installed — the saved previous context (`none`) is not restored on the
failure exit path, refuting the claim that every exit path restores the
previously active state. -/
theorem claim_C3_counterexample :
    (journal (.failP 0)
        ⟨⟨fun _ => [], none, none⟩, none, false, false, none⟩).2.ctx.writes
      ≠ (⟨⟨fun _ => [], none, none⟩, none, false, false, none⟩ : St).ctx.writes :=
  fun h => Option.noConfusion h

/-- C3 (amended): `journal` and `goal` save the previously active state
(the Transaction Context for `journal`; `goal.do` and `goal.in_goal`, plus
`goal.in_do` around dispatch, for `goal`) and restore it on the normal
return path only. When the wrapped computation raises, no restoration is
performed: `journal` returns with exactly the state the failed run left
behind (the fresh context still installed). -/
theorem claim_C3_amended_stack_discipline :
    (∀ (f : Prog) (st : St) (j : EffSet) (st2 : St),
        journal f st = (.ok j, st2) →
        st2.ctx.reads = st.ctx.reads ∧ st2.ctx.writes = st.ctx.writes)
    ∧ (∀ (f : Prog) (st : St) (e : PyErr) (st2 : St),
        run f (journalFresh st) = (.error e, st2) →
        journal f st = (.error e, st2))
    ∧ (∀ (m : Val → Int) (f : Prog) (st : St) (r : Val) (st2 : St),
        goal m f st = (.ok r, st2) →
        st2.gdo = st.gdo ∧ st2.inGoal = st.inGoal ∧ st2.inDo = st.inDo) := by
  refine ⟨?_, ?_, ?_⟩
  · intro f st j st2 h
    unfold journal at h
    rcases hr : run f (journalFresh st) with ⟨res, stR⟩
    rw [hr] at h
    cases res with
    | error e => simp at h
    | ok result =>
      injection h with h1 h2
      subst h2
      exact ⟨rfl, rfl⟩
  · intro f st e st2 h
    unfold journal
    rw [h]
  · intro m f st r st2 h
    unfold goal at h
    split at h
    · simp at h
    · rename_i j st1 heq
      have hInDo : st1.inDo = st.inDo := by
        have hh := journal_inDo f { st with gdo := none, inGoal := true }
        rw [heq] at hh
        exact hh
      split at h
      · split at h
        · simp at h
        · injection h with h1 h2
          subst h2
          exact ⟨rfl, rfl, hInDo⟩
      · rcases hc : commit j false st1.ctx with ⟨res, c⟩
        rw [hc] at h
        injection h with h1 h2
        subst h2
        exact ⟨rfl, rfl, hInDo⟩

/-- C3 (amended) witness: concrete instances of the three restore
properties — a successful `journal` restores the previous context, a
failing run propagates with its final state, and a successful `goal`
restores the registration state and flags. -/
theorem claim_C3_amended_witness :
    ((journal (.ret (.int 1))
        ⟨⟨fun _ => [], none, none⟩, none, false, false, none⟩).2.ctx.reads
        = (⟨⟨fun _ => [], none, none⟩, none, false, false, none⟩ : St).ctx.reads
      ∧ (journal (.ret (.int 1))
        ⟨⟨fun _ => [], none, none⟩, none, false, false, none⟩).2.ctx.writes
        = (⟨⟨fun _ => [], none, none⟩, none, false, false, none⟩ : St).ctx.writes)
    ∧ journal (.failP 3) ⟨⟨fun _ => [], none, none⟩, none, false, false, none⟩
        = (.error (.userError 3),
           ⟨⟨fun _ => [], some [], some []⟩, none, false, false, none⟩)
    ∧ ((⟨⟨fun _ => [], none, none⟩, none, false, false,
          some (.int 1, [], [])⟩ : St).gdo
        = (⟨⟨fun _ => [], none, none⟩, none, false, false, none⟩ : St).gdo
      ∧ (⟨⟨fun _ => [], none, none⟩, none, false, false,
          some (.int 1, [], [])⟩ : St).inGoal
        = (⟨⟨fun _ => [], none, none⟩, none, false, false, none⟩ : St).inGoal
      ∧ (⟨⟨fun _ => [], none, none⟩, none, false, false,
          some (.int 1, [], [])⟩ : St).inDo
        = (⟨⟨fun _ => [], none, none⟩, none, false, false, none⟩ : St).inDo) :=
  ⟨claim_C3_amended_stack_discipline.1 (.ret (.int 1))
      ⟨⟨fun _ => [], none, none⟩, none, false, false, none⟩
      (.int 1, [], [])
      ⟨⟨fun _ => [], none, none⟩, none, false, false, none⟩ rfl,
   claim_C3_amended_stack_discipline.2.1 (.failP 3)
      ⟨⟨fun _ => [], none, none⟩, none, false, false, none⟩
      (.userError 3)
      ⟨⟨fun _ => [], some [], some []⟩, none, false, false, none⟩ rfl,
   claim_C3_amended_stack_discipline.2.2 (fun _ => 0) (.ret (.int 1))
      ⟨⟨fun _ => [], none, none⟩, none, false, false, none⟩
      (.int 1)
      ⟨⟨fun _ => [], none, none⟩, none, false, false,
        some (.int 1, [], [])⟩ rfl⟩

/-- Looking up the key just stored always yields the stored value. -/
theorem alistGet_alistSet_self (m : List (Key × Val)) (k : Key) (v : Val) :
    alistGet (alistSet m k v) k = some v := by
  induction m with
  | nil => simp [alistSet, alistGet]
  | cons kv rest ih =>
    rcases kv with ⟨k2, v2⟩
    by_cases hk : k2 = k
    · subst hk
      simp [alistSet, alistGet]
    · simp [alistSet, alistGet, hk, ih]

/-- C4 (evaluation at the failing input): inside a Transaction Context,
a whole-value (key = none) read that resolves through a read override
returns the resolved value but caches nothing — the read-memo stays empty,
because the source's caching guard requires `key is not None`, which makes
its inner `if key is None:` cache branch dead code — whereas a keyed read
of the same capability value is cached into the read-memo. A second
whole-value read of the same address therefore resolves again instead of
returning a cached value, contradicting the claim (and the `If` class's
docstring, which relies on whole-value reads of its condition being
cached). -/
theorem claim_C4_whole_value_read_not_memoized :
    read ⟨fun _ => [], some [], some []⟩ (.cap (.fn (.int 7)) .missing) none
      = (.ok (.int 7), ⟨fun _ => [], some [], some []⟩)
    ∧ read ⟨fun _ => [(0, .cap (.fn (.int 7)) .missing)], some [], some []⟩
        (.ref 0) (some 0)
      = (.ok (.int 7),
         ⟨fun _ => [(0, .cap (.fn (.int 7)) .missing)],
          some [(.ref 0, .table [(0, .int 7)])], some []⟩) :=
  ⟨rfl, rfl⟩

/-- C5 (evaluation at the failing input): with a Transaction Context
active, `write` returns the result of `_dictSet`, which has no `return`
statement — so every buffered write (keyed or whole-value) returns `None`,
not the stored value, contradicting both the claim and `write`'s own
docstring ("returns the new value"). Untransacted, `write` does return the
stored value. -/
theorem claim_C5_buffered_write_returns_none :
    (write ⟨fun _ => [], some [], some []⟩ (.ref 0) (some 0) (.int 5)).1
      = .ok .vnone
    ∧ (write ⟨fun _ => [], some [], some []⟩ (.ref 0) none (.int 5)).1
      = .ok .vnone
    ∧ Val.vnone ≠ Val.int 5
    ∧ (write ⟨fun _ => [], none, none⟩ (.ref 0) (some 0) (.int 5)).1
      = .ok (.int 5) :=
  ⟨rfl, rfl, fun h => Val.noConfusion h, rfl⟩

/-- C6 counterexample: committing an Effect Set whose write-buffer holds a
whole-value write of `{1: 2}` for a container currently storing `{0: 1}`
does not replace the container's value — `commit` calls `dict.update`, so
the result is the merge `{0: 1, 1: 2}`, and the stale key `0` survives. -/
theorem claim_C6_counterexample :
    (commit (.vnone, [], [(.ref 0, .whole (.vdict [(1, .int 2)]))]) false
        ⟨fun _ => [(0, .int 1)], none, none⟩).2.heap 0
      = [(0, .int 1), (1, .int 2)]
    ∧ (commit (.vnone, [], [(.ref 0, .whole (.vdict [(1, .int 2)]))]) false
        ⟨fun _ => [(0, .int 1)], none, none⟩).2.heap 0
      ≠ [(1, .int 2)]
    ∧ (commit (.vnone, [], [(.ref 0, .whole (.vdict [(1, .int 2)]))]) false
        ⟨fun _ => [(0, .int 1)], none, none⟩).1
      = .ok .vnone := by
  refine ⟨rfl, ?_, rfl⟩
  intro h
  injection h with h1 h2
  exact List.noConfusion h2

/-- C6 (amended): `commit` with `skip` false applies a whole-value
buffered write by merging the buffered mapping's pairs into the
container's live storage via dict-update semantics — not by replacing the
container's externally visible value — and applies keyed buffered writes
by the same merge; `commit` returns the Effect Set's result in each case
(and with `skip` true it returns the result without touching storage). -/
theorem claim_C6_amended_commit_merges (c : Ctx) (x : Val) (rm : Buffer)
    (a : Addr) (m : List (Key × Val)) :
    commit (x, rm, [(.ref a, .whole (.vdict m))]) false c
      = (.ok x, ctxSetHeap c a (dictUpdate (c.heap a) m))
    ∧ commit (x, rm, [(.ref a, .table m)]) false c
      = (.ok x, ctxSetHeap c a (dictUpdate (c.heap a) m))
    ∧ ∀ es : EffSet, commit es true c = (.ok es.1, c) :=
  ⟨rfl, rfl, fun _ => rfl⟩

/-- C9 counterexample: a stored value whose `__concept__` table exists but
has no entry for the read operation makes `__checkOverride` raise
`KeyError`; `read`'s surrounding `except KeyError: pass` catches it and
`read` returns `None` — not the raw stored value, so the condition is not
"converted to no override": a plain stored value with no table at all
(true no-override) is returned raw. -/
theorem claim_C9_counterexample :
    read ⟨fun _ => [(0, .cap .missing .null)], none, none⟩ (.ref 0) (some 0)
      = (.ok .vnone, ⟨fun _ => [(0, .cap .missing .null)], none, none⟩)
    ∧ Val.vnone ≠ Val.cap .missing .null
    ∧ read ⟨fun _ => [(0, .int 3)], none, none⟩ (.ref 0) (some 0)
      = (.ok (.int 3), ⟨fun _ => [(0, .int 3)], none, none⟩) :=
  ⟨rfl, fun h => Val.noConfusion h, rfl⟩

/-- C9 (amended): override resolution scans the operation's candidate
arguments in order and returns the first non-deferral override result;
only a candidate with no Override Table at all (or one whose entry is the
`None` deferral sentinel, or whose override defers) counts as a
non-match, and when every candidate defers the default body runs. A
candidate whose table exists but lacks the invoked operation's entry
raises a missing-key error out of `__checkOverride`; in `read` and in
untransacted `write` that error is caught by the surrounding
missing-entry handlers, so it never surfaces as an error to their callers
— but the outcome for `read` is "no value" (`None`), not the raw stored
value, while for `write` it coincides with storing `newValue` directly. -/
theorem claim_C9_amended_override_resolution :
    (∀ (op : Op) (pre : List Val) (v : Val) (post : List Val) (dflt r : Val),
        (∀ u ∈ pre, checkOverride u op = .ok .vnone) →
        checkOverride v op = .ok r → r.isNone = false →
        checkedRun op (pre ++ v :: post) dflt = .ok r)
    ∧ (∀ (op : Op) (args : List Val) (dflt : Val),
        (∀ u ∈ args, checkOverride u op = .ok .vnone) →
        checkedRun op args dflt = .ok dflt)
    ∧ (∀ (h : Heap) (a : Addr) (k : Key) (wrE : OvEntry Val),
        alistGet (h a) k = some (.cap .missing wrE) →
        read ⟨h, none, none⟩ (.ref a) (some k) = (.ok .vnone, ⟨h, none, none⟩))
    ∧ (∀ (h : Heap) (a : Addr) (k : Key) (rdE : OvEntry Val) (new : Val),
        alistGet (h a) k = some (.cap rdE .missing) →
        write ⟨h, none, none⟩ (.ref a) (some k) new
          = (.ok new, ctxSetHeap ⟨h, none, none⟩ a (alistSet (h a) k new))) := by
  refine ⟨?_, ?_, ?_, ?_⟩
  · intro op pre v post dflt r hpre hv hr
    induction pre with
    | nil =>
      simp [checkedRun, hv, hr]
    | cons u rest ih =>
      have hu : checkOverride u op = .ok .vnone := hpre u (List.mem_cons_self u rest)
      simp only [List.cons_append, checkedRun, hu, Val.isNone, if_true]
      exact ih fun u2 hu2 => hpre u2 (List.mem_cons_of_mem u hu2)
  · intro op args dflt hargs
    induction args with
    | nil => rfl
    | cons u rest ih =>
      have hu : checkOverride u op = .ok .vnone := hargs u (List.mem_cons_self u rest)
      simp only [checkedRun, hu, Val.isNone, if_true]
      exact ih fun u2 hu2 => hargs u2 (List.mem_cons_of_mem u hu2)
  · intro h a k wrE hk
    simp [read, readResolve, checkOverride, entryResult, hk, readBufLookup]
  · intro h a k rdE new hk
    simp [write, writeResolve, checkOverride, entryResult, hk, storeBack]

/-- C9 (amended) witness: concrete instances — a deferring plain argument
followed by an overriding capability resolves to the capability's result;
an all-deferring list falls through to the default; a missing-entry table
makes `read` return `None` without error; and a missing-entry table makes
untransacted `write` store the new value and return it. -/
theorem claim_C9_amended_witness :
    checkedRun .rd [.int 1, .cap (.fn (.int 9)) .missing] (.int 0) = .ok (.int 9)
    ∧ checkedRun .rd [.int 1, .vnone] (.int 4) = .ok (.int 4)
    ∧ read ⟨fun _ => [(0, .cap .missing .null)], none, none⟩ (.ref 0) (some 0)
        = (.ok .vnone, ⟨fun _ => [(0, .cap .missing .null)], none, none⟩)
    ∧ write ⟨fun _ => [(0, .cap .null .missing)], none, none⟩ (.ref 0) (some 0)
        (.int 6)
        = (.ok (.int 6),
           ctxSetHeap ⟨fun _ => [(0, .cap .null .missing)], none, none⟩ 0
             (alistSet ((fun _ => [(0, Val.cap .null .missing)]) 0) 0 (.int 6))) :=
  ⟨claim_C9_amended_override_resolution.1 .rd [.int 1]
      (.cap (.fn (.int 9)) .missing) [] (.int 0) (.int 9)
      (fun u hu => by cases List.mem_singleton.mp hu; rfl) rfl rfl,
   claim_C9_amended_override_resolution.2.1 .rd [.int 1, .vnone] (.int 4)
      (fun u hu => by
        rcases List.mem_cons.mp hu with h1 | h2
        · cases h1; rfl
        · cases List.mem_singleton.mp h2; rfl),
   claim_C9_amended_override_resolution.2.2.1
      (fun _ => [(0, .cap .missing .null)]) 0 0 .null rfl,
   claim_C9_amended_override_resolution.2.2.2
      (fun _ => [(0, .cap .null .missing)]) 0 0 .null (.int 6) rfl⟩

/-- C7: if two strategies are registered via `on_goal` in order `A` then
`B` during one goal's baseline run (Goal Frame open, not inside an
optimizer), the stored composed optimizer applies `A` first — `A` is the
outermost — and the synthetic "next computation" handed to `A` delegates,
when invoked, to `B` applied to the original computation; `goal`'s
dispatch therefore executes `A`'s body first. -/
theorem claim_C7_priority_composition {M R : Type}
    (A B : M → (Unit → R) → R) (st : GoalReg M R)
    (h1 : st.inGoal = true) (h2 : st.inDo = false) (h3 : st.gdo = none) :
    (onGoalFn (onGoalFn st A) B).gdo
      = some (fun m f => A m (fun _ => B m f))
    ∧ ∀ (m : M) (f : Unit → R) (fb : R),
        dispatchFn (onGoalFn (onGoalFn st A) B) m f fb
          = A m (fun _ => B m f) := by
  have hfst : onGoalFn st A = { st with gdo := some A } := by
    simp [onGoalFn, h1, h2, h3]
  have hsnd : (onGoalFn (onGoalFn st A) B).gdo
      = some (fun m f => A m (fun _ => B m f)) := by
    rw [hfst]
    simp [onGoalFn, h1, h2]
  exact ⟨hsnd, fun m f fb => by simp [dispatchFn, hsnd]⟩

/-- C7 witness: with trace-producing strategies (`A` prepends 10, `B`
prepends 20, each then invokes its next computation), dispatch runs `A`
outermost and its next computation delegates to `B`. -/
theorem claim_C7_witness :
    (onGoalFn (onGoalFn (⟨none, true, false⟩ : GoalReg Nat (List Nat))
        (fun _ next => 10 :: next ()))
        (fun _ next => 20 :: next ())).gdo
      = some (fun m f => (fun _ next => 10 :: next ()) m
          (fun _ => (fun (_ : Nat) (next : Unit → List Nat) => 20 :: next ()) m f))
    ∧ dispatchFn (onGoalFn (onGoalFn (⟨none, true, false⟩ : GoalReg Nat (List Nat))
        (fun _ next => 10 :: next ()))
        (fun _ next => 20 :: next ())) 0 (fun _ => [0]) []
      = (fun _ next => 10 :: next ()) 0
          (fun _ => (fun (_ : Nat) (next : Unit → List Nat) => 20 :: next ()) 0 (fun _ => [0])) :=
  ⟨(claim_C7_priority_composition (fun _ next => 10 :: next ())
      (fun _ next => 20 :: next ()) ⟨none, true, false⟩ rfl rfl rfl).1,
   (claim_C7_priority_composition (fun _ next => 10 :: next ())
      (fun _ next => 20 :: next ()) ⟨none, true, false⟩ rfl rfl rfl).2
      0 (fun _ => [0]) []⟩

/-- The selection loop's retained measure equals the measure of the
retained Effect Set's result, provided the starting pair satisfies this. -/
theorem repeatLoop_measure_inv (measure : Val → Int) (runs : List EffSet) :
    ∀ best : EffSet × Int, best.2 = measure best.1.1 →
      (repeatLoop measure runs best).2
        = measure (repeatLoop measure runs best).1.1 := by
  induction runs with
  | nil => intro best h; exact h
  | cons j rest ih =>
    intro best h
    rcases best with ⟨bJ, bM⟩
    simp only [repeatLoop]
    by_cases hlt : measure j.1 < bM
    · rw [if_pos hlt]; exact ih (j, measure j.1) rfl
    · rw [if_neg hlt]; exact ih (bJ, bM) h

/-- The selection loop never retains a measure above the starting one. -/
theorem repeatLoop_le_init (measure : Val → Int) (runs : List EffSet) :
    ∀ best : EffSet × Int, (repeatLoop measure runs best).2 ≤ best.2 := by
  induction runs with
  | nil => intro best; exact le_refl _
  | cons j rest ih =>
    intro best
    rcases best with ⟨bJ, bM⟩
    simp only [repeatLoop]
    by_cases hlt : measure j.1 < bM
    · rw [if_pos hlt]
      exact le_trans (ih (j, measure j.1)) (le_of_lt hlt)
    · rw [if_neg hlt]
      exact ih (bJ, bM)

/-- The selection loop's retained measure is at most the measure of every
run it saw. -/
theorem repeatLoop_le_runs (measure : Val → Int) (runs : List EffSet) :
    ∀ best : EffSet × Int, ∀ j ∈ runs,
      (repeatLoop measure runs best).2 ≤ measure j.1 := by
  induction runs with
  | nil => intro best j hj; exact absurd hj (List.not_mem_nil j)
  | cons j0 rest ih =>
    intro best j hj
    rcases best with ⟨bJ, bM⟩
    simp only [repeatLoop]
    rcases List.mem_cons.mp hj with h1 | h2
    · subst h1
      by_cases hlt : measure j.1 < bM
      · rw [if_pos hlt]
        exact repeatLoop_le_init measure rest (j, measure j.1)
      · rw [if_neg hlt]
        exact le_trans (repeatLoop_le_init measure rest (bJ, bM))
          (le_of_not_lt hlt)
    · by_cases hlt : measure j0.1 < bM
      · rw [if_pos hlt]; exact ih (j0, measure j0.1) j h2
      · rw [if_neg hlt]; exact ih (bJ, bM) j h2

/-- The selection loop retains either the starting Effect Set or one of
the runs (ties keep the earlier one because replacement needs a strictly
smaller measure). -/
theorem repeatLoop_keeps (measure : Val → Int) (runs : List EffSet) :
    ∀ best : EffSet × Int,
      (repeatLoop measure runs best).1 = best.1
        ∨ (repeatLoop measure runs best).1 ∈ runs := by
  induction runs with
  | nil => intro best; exact Or.inl rfl
  | cons j rest ih =>
    intro best
    rcases best with ⟨bJ, bM⟩
    simp only [repeatLoop]
    by_cases hlt : measure j.1 < bM
    · rw [if_pos hlt]
      rcases ih (j, measure j.1) with h1 | h2
      · exact Or.inr (h1 ▸ List.mem_cons_self j rest)
      · exact Or.inr (List.mem_cons_of_mem j h2)
    · rw [if_neg hlt]
      rcases ih (bJ, bM) with h1 | h2
      · exact Or.inl h1
      · exact Or.inr (List.mem_cons_of_mem j h2)

/-- C8: `minimize`'s strategy evaluates the measure of the baseline Effect
Set's result, folds the `tries` resampled journal runs keeping the Effect
Set with the strictly smallest measure (baseline included, ties keeping
the earlier one), then commits the retained best Effect Set and returns
its result; consequently the measure of the final committed result is ≤
the baseline's measure and ≤ the measure of every resampled run, and the
committed Effect Set is the baseline or one of the runs. The successive
Effect Sets returned by `journal(computation, args)` are the list `runs`
of length `tries`. -/
theorem claim_C8_minimize_monotone (measure : Val → Int) (baseline : EffSet)
    (runs : List EffSet) (tries : Nat) (_hlen : runs.length = tries)
    (c c2 : Ctx)
    (hcommit : commitWrites
        (repeatLoop measure runs (baseline, measure baseline.1)).1.2.2 c
        = (none, c2)) :
    minimizeRepeat measure baseline runs c
      = (.ok (repeatLoop measure runs (baseline, measure baseline.1)).1.1, c2)
    ∧ measure (repeatLoop measure runs (baseline, measure baseline.1)).1.1
        ≤ measure baseline.1
    ∧ (∀ j ∈ runs,
        measure (repeatLoop measure runs (baseline, measure baseline.1)).1.1
          ≤ measure j.1)
    ∧ ((repeatLoop measure runs (baseline, measure baseline.1)).1 = baseline
        ∨ (repeatLoop measure runs (baseline, measure baseline.1)).1 ∈ runs) := by
  have hinv := repeatLoop_measure_inv measure runs (baseline, measure baseline.1) rfl
  refine ⟨?_, ?_, ?_, repeatLoop_keeps measure runs (baseline, measure baseline.1)⟩
  · unfold minimizeRepeat
    unfold commit
    rw [if_neg (by simp), hcommit]
  · rw [← hinv]
    exact repeatLoop_le_init measure runs (baseline, measure baseline.1)
  · intro j hj
    rw [← hinv]
    exact repeatLoop_le_runs measure runs (baseline, measure baseline.1) j hj

/-- C8 witness: with the identity-on-numbers measure, a baseline scoring 5
and two resampled runs scoring 3 and 4, the strategy commits the
first-sampled Effect Set (score 3), whose measure is below the baseline's
and every run's. -/
theorem claim_C8_witness :
    minimizeRepeat (fun v => match v with | .int n => n | _ => 0)
        (.int 5, [], []) [(.int 3, [], []), (.int 4, [], [])]
        ⟨fun _ => [], none, none⟩
      = (.ok (repeatLoop (fun v => match v with | .int n => n | _ => 0)
              [(.int 3, [], []), (.int 4, [], [])]
              ((.int 5, [], []), (fun v : Val => match v with | .int n => n | _ => 0) (.int 5))).1.1,
         ⟨fun _ => [], none, none⟩)
    ∧ (fun v : Val => match v with | .int n => n | _ => 0)
        (repeatLoop (fun v => match v with | .int n => n | _ => 0)
          [(.int 3, [], []), (.int 4, [], [])]
          ((.int 5, [], []), (fun v : Val => match v with | .int n => n | _ => 0) (.int 5))).1.1
        ≤ (fun v : Val => match v with | .int n => n | _ => 0) (Val.int 5)
    ∧ ((fun v : Val => match v with | .int n => n | _ => 0)
          (repeatLoop (fun v => match v with | .int n => n | _ => 0)
            [(.int 3, [], []), (.int 4, [], [])]
            ((.int 5, [], []), (fun v : Val => match v with | .int n => n | _ => 0) (.int 5))).1.1
          ≤ (fun v : Val => match v with | .int n => n | _ => 0)
            ((Val.int 3 : Val), ([] : Buffer), ([] : Buffer)).1)
    ∧ ((repeatLoop (fun v => match v with | .int n => n | _ => 0)
          [(.int 3, [], []), (.int 4, [], [])]
          ((.int 5, [], []), (fun v : Val => match v with | .int n => n | _ => 0) (.int 5))).1
          = (.int 5, [], [])
        ∨ (repeatLoop (fun v => match v with | .int n => n | _ => 0)
            [(.int 3, [], []), (.int 4, [], [])]
            ((.int 5, [], []), (fun v : Val => match v with | .int n => n | _ => 0) (.int 5))).1
          ∈ [((Val.int 3 : Val), ([] : Buffer), ([] : Buffer)),
             ((Val.int 4 : Val), ([] : Buffer), ([] : Buffer))]) :=
  ⟨(claim_C8_minimize_monotone (fun v => match v with | .int n => n | _ => 0)
      (.int 5, [], []) [(.int 3, [], []), (.int 4, [], [])] 2 rfl
      ⟨fun _ => [], none, none⟩ ⟨fun _ => [], none, none⟩ rfl).1,
   (claim_C8_minimize_monotone (fun v => match v with | .int n => n | _ => 0)
      (.int 5, [], []) [(.int 3, [], []), (.int 4, [], [])] 2 rfl
      ⟨fun _ => [], none, none⟩ ⟨fun _ => [], none, none⟩ rfl).2.1,
   (claim_C8_minimize_monotone (fun v => match v with | .int n => n | _ => 0)
      (.int 5, [], []) [(.int 3, [], []), (.int 4, [], [])] 2 rfl
      ⟨fun _ => [], none, none⟩ ⟨fun _ => [], none, none⟩ rfl).2.2.1
      ((Val.int 3 : Val), ([] : Buffer), ([] : Buffer))
      (List.mem_cons_self _ _),
   (claim_C8_minimize_monotone (fun v => match v with | .int n => n | _ => 0)
      (.int 5, [], []) [(.int 3, [], []), (.int 4, [], [])] 2 rfl
      ⟨fun _ => [], none, none⟩ ⟨fun _ => [], none, none⟩ rfl).2.2.2⟩

/-- C10: an attribute read on a static-storage object
(`SelfWritingDict.__getattr__`) also performs a write of the value just
read back to the same key. Inside a journal (fresh Transaction Context),
reading a field whose stored value is a capability with a read override
resolving to `r` returns `r`, leaves the underlying storage untouched,
and puts `(key, r)` into the write-buffer; committing an Effect Set with
that buffered entry overwrites the field's stored value with the resolved
value `r` (e.g. a plain value replacing the stored capability). -/
theorem claim_C10_selfwriting_read_writes_back (c : Ctx) (a : Addr) (k : Key)
    (r : Val) (wrE : OvEntry Val)
    (hw : c.writes = some []) (hr : c.reads = some [])
    (hv : alistGet (c.heap a) k = some (.cap (.fn r) wrE))
    (hrn : r.isNone = false) :
    (SelfWritingDict.getattr c a k).1 = .ok r
    ∧ (SelfWritingDict.getattr c a k).2.heap = c.heap
    ∧ (SelfWritingDict.getattr c a k).2.writes
        = some [(.ref a, .table [(k, r)])]
    ∧ ∀ (d : Ctx) (x : Val) (rm : Buffer),
        (commit (x, rm, [(.ref a, .table [(k, r)])]) false d).1 = .ok x
        ∧ alistGet
            ((commit (x, rm, [(.ref a, .table [(k, r)])]) false d).2.heap a) k
          = some r := by
  have hread : read c (.ref a) (some k)
      = (.ok r, { c with reads := some [(.ref a, .table [(k, r)])] }) := by
    simp [read, readBufLookup, dictGetBuf, readResolve, checkOverride,
          entryResult, bufSetKeyed, dictSetBuf, alistSet, hw, hr, hv, hrn]
  have hwrite : write { c with reads := some [(.ref a, .table [(k, r)])] }
      (.ref a) (some k) r
      = (.ok .vnone,
         { c with reads := some [(.ref a, .table [(k, r)])],
                  writes := some [(.ref a, .table [(k, r)])] }) := by
    simp [write, bufSetKeyed, dictGetBuf, dictSetBuf, alistSet, hw]
  have hget : SelfWritingDict.getattr c a k
      = (.ok r,
         { c with reads := some [(.ref a, .table [(k, r)])],
                  writes := some [(.ref a, .table [(k, r)])] }) := by
    simp only [SelfWritingDict.getattr, hread, hwrite]
  refine ⟨by rw [hget], by rw [hget], by rw [hget], ?_⟩
  intro d x rm
  refine ⟨rfl, ?_⟩
  have h1 : alistGet (alistSet (d.heap a) k r) k = some r :=
    alistGet_alistSet_self (d.heap a) k r
  simpa [commit, commitWrites, ctxSetHeap, heapSet, dictUpdate] using h1

/-- C10 witness: a concrete static-storage field holding a capability that
resolves to the number 7 — the attribute read returns 7, buffers the
write-back, and committing that Effect Set stores 7 over the capability. -/
theorem claim_C10_witness :
    (SelfWritingDict.getattr
        ⟨fun _ => [(0, .cap (.fn (.int 7)) .null)], some [], some []⟩ 0 0).1
      = .ok (.int 7)
    ∧ (SelfWritingDict.getattr
        ⟨fun _ => [(0, .cap (.fn (.int 7)) .null)], some [], some []⟩ 0 0).2.heap
      = (⟨fun _ => [(0, .cap (.fn (.int 7)) .null)], some [], some []⟩ : Ctx).heap
    ∧ (SelfWritingDict.getattr
        ⟨fun _ => [(0, .cap (.fn (.int 7)) .null)], some [], some []⟩ 0 0).2.writes
      = some [(.ref 0, .table [(0, .int 7)])]
    ∧ ((commit (.vnone, [], [(.ref 0, .table [(0, .int 7)])]) false
          ⟨fun _ => [(0, .cap (.fn (.int 7)) .null)], none, none⟩).1 = .ok .vnone
      ∧ alistGet
          ((commit (.vnone, [], [(.ref 0, .table [(0, .int 7)])]) false
            ⟨fun _ => [(0, .cap (.fn (.int 7)) .null)], none, none⟩).2.heap 0) 0
        = some (.int 7)) :=
  ⟨(claim_C10_selfwriting_read_writes_back
      ⟨fun _ => [(0, .cap (.fn (.int 7)) .null)], some [], some []⟩ 0 0
      (.int 7) .null rfl rfl rfl rfl).1,
   (claim_C10_selfwriting_read_writes_back
      ⟨fun _ => [(0, .cap (.fn (.int 7)) .null)], some [], some []⟩ 0 0
      (.int 7) .null rfl rfl rfl rfl).2.1,
   (claim_C10_selfwriting_read_writes_back
      ⟨fun _ => [(0, .cap (.fn (.int 7)) .null)], some [], some []⟩ 0 0
      (.int 7) .null rfl rfl rfl rfl).2.2.1,
   (claim_C10_selfwriting_read_writes_back
      ⟨fun _ => [(0, .cap (.fn (.int 7)) .null)], some [], some []⟩ 0 0
      (.int 7) .null rfl rfl rfl rfl).2.2.2
      ⟨fun _ => [(0, .cap (.fn (.int 7)) .null)], none, none⟩ .vnone []⟩

end ExprGen
